import Mathlib

/-!
Shallow embedding of the dotgraph repository (Go) for checking its
natural-language specification.

Sources embedded:
* `src/pipeline/conditions.go` — condition predicates and boolean combinators;
* `src/unnamed/part_005` — the generic dependency-graph scheduler
  (`Graph.AddStage`, `Graph.Execute`, `Graph.executeStage`,
  `Graph.findDependents`, `Graph.allDependenciesMet`);
* `src/pkg/manager.go`, `src/pkg/homebrew.go`, `src/pkg/yay.go` — package
  installers and the selection policy.

External collaborators (Go standard library and the machine environment:
`os.Stat`, `os.ExpandEnv`, `filepath.Clean`, `exec.LookPath`, `cmd.Run`) are
modelled as abstract function parameters; everything the repository itself
computes is translated directly.
-/

namespace Pipeline

/-- Embeds `Condition[T] = func(*Request[T]) bool` from
`src/pipeline/conditions.go`.  The request type is kept abstract (`ρ`),
matching the source's genericity over `T`. -/
def Condition (ρ : Type) : Type := ρ → Bool

/-- Embeds `Not` (conditions.go lines 54-59): inverts a condition. -/
def Not {ρ : Type} (condition : Condition ρ) : Condition ρ :=
  fun req => !(condition req)

/-- Embeds `And` (conditions.go lines 61-71): the loop
`for cond { if !cond(req) { return false } }; return true`,
translated to structural recursion over the argument list. -/
def And {ρ : Type} : List (Condition ρ) → ρ → Bool
  | [], _ => true
  | cond :: conds, req => if cond req then And conds req else false

/-- Embeds `Or` (conditions.go lines 73-83): the loop
`for cond { if cond(req) { return true } }; return false`. -/
def Or {ρ : Type} : List (Condition ρ) → ρ → Bool
  | [], _ => false
  | cond :: conds, req => if cond req then true else Or conds req

/-- Instrumentation of the `And` loop: the number of condition invocations
the loop in conditions.go lines 63-68 performs before returning.  The loop
calls the head condition once, and recurses only when it returned true. -/
def andCalls {ρ : Type} : List (Condition ρ) → ρ → Nat
  | [], _ => 0
  | cond :: conds, req => if cond req then 1 + andCalls conds req else 1

/-- Instrumentation of the `Or` loop: the number of condition invocations
the loop in conditions.go lines 75-81 performs before returning. -/
def orCalls {ρ : Type} : List (Condition ρ) → ρ → Nat
  | [], _ => 0
  | cond :: conds, req => if cond req then 1 else 1 + orCalls conds req

/-- Embeds `Environment` (the `req.Env` bundle used by conditions.go). -/
structure Environment where
  os : String
  arch : String
  workDir : String
deriving DecidableEq, Repr

/-- Embeds `expandPathWithWorkDir` (conditions.go lines 85-100).
`expandEnv` stands for `os.ExpandEnv` and `clean` for `filepath.Clean`,
both Go standard library collaborators external to the repository. -/
def expandPathWithWorkDir (expandEnv clean : String → String)
    (path workDir : String) : String :=
  let p1 := path.replace ("$HOME") workDir
  let p2 := if p1.startsWith ("~") then workDir ++ p1.drop 1 else p1
  clean (expandEnv p2)

/-- Embeds `FileExists` (conditions.go lines 12-21).  `stat` stands for
`os.Stat` succeeding (error-free) on a path; the condition returns the
boolean `err == nil`, so a missing file is the value `false`. -/
def FileExists (expandEnv clean : String → String) (stat : String → Bool)
    (path : String) (env : Environment) : Bool :=
  stat (expandPathWithWorkDir expandEnv clean path env.workDir)

/-- Follows the spec's words for *file-exists(path)* (spec section 4.1):
replace every `$HOME` token with the context's workDir, replace a leading
`~` with workDir, then expand remaining environment-variable references,
normalize the result, and report whether the filesystem entry exists.
Written independently of `FileExists` to compare the two. -/
def fileExistsSpec (expandEnv clean : String → String) (stat : String → Bool)
    (path : String) (env : Environment) : Bool :=
  let replacedHome := path.replace ("$HOME") env.workDir
  let replacedTilde :=
    if replacedHome.startsWith ("~") then env.workDir ++ replacedHome.drop 1
    else replacedHome
  let expanded := expandEnv replacedTilde
  let normalized := clean expanded
  stat normalized

/-- Embeds `GraphStage[T]` (part_005 lines 21-31).  Because the execution
context (`*Request[T]`) is fixed for a whole run, the stage's
run-dependent members are embedded by their values at that fixed context:
`unless` conditions by the booleans they evaluate to, and the handler
`run` by the error it returns (`none` = success, `some msg` = failure).
`dependencies` holds the names of the referenced stages (stage names are
the graph's map keys, part_005 line 50).  The `executed` flag lives in
`ExecState`, not here, because it is the run's mutable state. -/
structure GraphStage where
  name : String
  platform : String
  dependencies : List String
  requires : List String
  /-- Named `unless` in the source; renamed because `unless` is reserved
  in Lean. -/
  unlessConds : List Bool
  optional : Bool
  runResult : Option String
deriving DecidableEq, Repr

/-- The errors `executeStage` can return (part_005 lines 172 and 182):
a missing required command (carrying the stage and command names the
`fmt.Errorf` format string embeds) or a wrapped handler failure
(carrying the stage name and the underlying message). -/
inductive Err where
  | missingCommand (stageName cmdName : String)
  | stageFailed (stageName msg : String)
deriving DecidableEq, Repr

/-- The run's mutable state: which stages have their `executed` flag set,
which handlers have been invoked (in order), and the optional-failure
warnings recorded via `logger.Warn` (part_005 line 180). -/
structure ExecState where
  executed : List String
  invoked : List String
  warnings : List (String × String)
deriving DecidableEq, Repr

/-- The run-wide collaborators `executeStage` consults: the graph's
`platform` field (part_005 line 16, normally `runtime.GOOS`) and the
injected executor's `LookPath` (part_005 line 163), modelled by whether
lookup succeeds. -/
structure ExecEnv where
  platform : String
  lookPath : String → Bool

/-- How one pass through the body of `executeStage` (part_005 lines
134-190, before the dependent fan-out) ends: an early `return nil`
(already-executed guard or one of the silent skips), a fatal error
return, or falling through to the dependent fan-out. -/
inductive StepOut where
  | early
  | fatal (e : Err)
  | proceed
deriving DecidableEq, Repr

/-- The first required command whose search-path lookup fails, in list
order — the command the loop at part_005 lines 162-174 stops at. -/
def firstMissing (env : ExecEnv) (s : GraphStage) : Option String :=
  s.requires.find? (fun cmd => !(env.lookPath cmd))

/-- Embeds the per-stage body of `executeStage` (part_005 lines 134-190):
the already-executed guard, the platform check, the `unless` conditions,
the required-command loop, the handler invocation, and the setting of the
`executed` flag, in source order. -/
def stepStage (env : ExecEnv) (s : GraphStage) (st : ExecState) :
    ExecState × StepOut :=
  if s.name ∈ st.executed then (st, StepOut.early)
  else if s.platform ≠ "" ∧ s.platform ≠ env.platform then
    ({ st with executed := st.executed ++ [s.name] }, StepOut.early)
  else if s.unlessConds.any id then
    ({ st with executed := st.executed ++ [s.name] }, StepOut.early)
  else
    match firstMissing env s with
    | some cmd =>
      if s.optional then
        ({ st with executed := st.executed ++ [s.name] }, StepOut.early)
      else (st, StepOut.fatal (Err.missingCommand s.name cmd))
    | none =>
      let st1 := { st with invoked := st.invoked ++ [s.name] }
      match s.runResult with
      | some msg =>
        if s.optional then
          ({ st1 with
              warnings := st1.warnings ++ [(s.name, msg)]
              executed := st1.executed ++ [s.name] }, StepOut.proceed)
        else (st1, StepOut.fatal (Err.stageFailed s.name msg))
      | none =>
        ({ st1 with executed := st1.executed ++ [s.name] }, StepOut.proceed)

/-- Embeds `findDependents` (part_005 lines 227-238): every stage of the
graph whose `dependencies` contain the given stage. -/
def findDependents (g : List GraphStage) (s : GraphStage) : List GraphStage :=
  g.filter (fun t => t.dependencies.contains s.name)

/-- Embeds `allDependenciesMet` (part_005 lines 241-251): every
dependency's `executed` flag is set. -/
def allDependenciesMet (st : ExecState) (s : GraphStage) : Bool :=
  s.dependencies.all (fun n => st.executed.contains n)

/-- The dependents the fan-out loop (part_005 lines 198-211) launches:
those passing the `allDependenciesMet` guard. -/
def launchCandidates (g : List GraphStage) (s : GraphStage)
    (st : ExecState) : List GraphStage :=
  (findDependents g s).filter (fun d => allDependenciesMet st d)

/-- First-error-wins aggregation over the error channel (part_005 lines
216-220 and 122-126). -/
def firstErr : Option Err → Option Err → Option Err
  | some e, _ => some e
  | none, b => b

/-- Embeds `executeStage` (part_005 lines 133-224): run the per-stage
body, then recursively execute the launched dependents, aggregating the
first error.  The scheduler's concurrency is resolved into the sequential
interleaving that runs each launched dependent to completion in list
order; `fuel` bounds the recursion depth (the Go recursion terminates only
on acyclic graphs, so any `fuel ≥` the graph's depth is exact there). -/
def executeStage (env : ExecEnv) (g : List GraphStage) :
    Nat → GraphStage → ExecState → ExecState × Option Err
  | fuel, s, st =>
    match stepStage env s st with
    | (st1, StepOut.early) => (st1, none)
    | (st1, StepOut.fatal e) => (st1, some e)
    | (st1, StepOut.proceed) =>
      match fuel with
      | 0 => (st1, none)
      | Nat.succ f =>
        (launchCandidates g s st1).foldl
          (fun acc d =>
            let p := executeStage env g f d acc.1
            (p.1, firstErr acc.2 p.2))
          (st1, none)

/-- Embeds `Execute` (part_005 lines 93-130): compute the root set
(stages with an empty `dependencies` list), run each root, and return the
first error observed, `none` on zero errors. -/
def Execute (env : ExecEnv) (g : List GraphStage) (fuel : Nat)
    (st : ExecState) : ExecState × Option Err :=
  let roots := g.filter (fun s => s.dependencies.isEmpty)
  roots.foldl
    (fun acc s =>
      let p := executeStage env g fuel s acc.1
      (p.1, firstErr acc.2 p.2))
    (st, none)

/-- One per-stage-procedure invocation as a state transformer (its
returned error ignored), used to describe arbitrary interleavings. -/
def applyStage (env : ExecEnv) (st : ExecState) (s : GraphStage) : ExecState :=
  (stepStage env s st).1

/-- An arbitrary sequence of per-stage-procedure invocations applied in
order: an over-approximation of every interleaving the concurrent
scheduler can produce, since each goroutine's visible effect on the
shared state is exactly one `stepStage`. -/
def traceRun (env : ExecEnv) (seq : List GraphStage) (st : ExecState) :
    ExecState :=
  seq.foldl (applyStage env) st

/-- Embeds `Graph[T]` (part_005 lines 14-17): the stages map (as a list
keyed by the unique `name` field) and the current platform. -/
structure Graph where
  stages : List GraphStage
  platform : String
deriving DecidableEq, Repr

/-- The stage value `AddStage` constructs (part_005 lines 43-49): empty
dependency, requirement and condition lists; zero-valued `platform`,
`optional` and `executed`. -/
def mkStage (name : String) (runResult : Option String) : GraphStage :=
  { name := name
    platform := ""
    dependencies := []
    requires := []
    unlessConds := []
    optional := false
    runResult := runResult }

/-- Embeds the Go map assignment `g.stages[name] = stage` (part_005 line
50) on the list representation: replace the entry with that key if one
exists, otherwise append. -/
def insertStage (stages : List GraphStage) (s : GraphStage) :
    List GraphStage :=
  if stages.any (fun t => t.name == s.name) then
    stages.map (fun t => if t.name == s.name then s else t)
  else stages ++ [s]

/-- Embeds `AddStage` (part_005 lines 42-52): construct the stage and
store it under its name. -/
def AddStage (g : Graph) (name : String) (runResult : Option String) :
    Graph :=
  { g with stages := insertStage g.stages (mkStage name runResult) }

/-- Go map lookup `g.stages[name]` on the list representation. -/
def lookupStage (g : Graph) (n : String) : Option GraphStage :=
  g.stages.find? (fun t => t.name == n)

end Pipeline

namespace Pkg

/-- The package-manager implementations named by `managerPriority` in
`src/pkg/manager.go` lines 17-20, plus the `Noop` fallback. -/
inductive PM where
  | homebrew
  | yay
  | pacman
  | noop
deriving DecidableEq, Repr

/-- Embeds the `managerPriority` map (manager.go lines 17-20):
`"darwin" ↦ [Homebrew]`, `"linux" ↦ [Yay, Pacman]`; other keys absent. -/
def managerPriority (os : String) : Option (List PM) :=
  if os = "darwin" then some [PM.homebrew]
  else if os = "linux" then some [PM.yay, PM.pacman]
  else none

/-- Embeds the selection loop of `NewManager` (manager.go lines 29-35):
return the first manager whose `Available()` is true, else `Noop`.
`avail` stands for each implementation's `Available()` method, which
consults the machine (external collaborator). -/
def firstAvailable (avail : PM → Bool) : List PM → PM
  | [] => PM.noop
  | m :: ms => if avail m then m else firstAvailable avail ms

/-- Embeds `NewManager` (manager.go lines 23-36): look the OS up in
`managerPriority`; absent key returns `Noop`; otherwise scan the priority
list for the first available manager, falling back to `Noop`. -/
def NewManager (avail : PM → Bool) (os : String) : PM :=
  match managerPriority os with
  | none => PM.noop
  | some ms => firstAvailable avail ms

/-- Follows the spec's words for the selection policy (spec section 6):
given the current OS, try each platform-appropriate implementation in a
fixed priority order and return the first whose `available()` is true; if
none are available, return the no-op implementation. -/
def selectManagerSpec (avail : PM → Bool) (os : String) : PM :=
  match managerPriority os with
  | none => PM.noop
  | some ms =>
    match ms.find? avail with
    | some m => m
    | none => PM.noop

/-- An install call's observable outcome: the returned error (if any) and
the external commands the call spawned (program name with arguments). -/
structure InstallOut where
  err : Option String
  cmds : List (String × List String)
deriving DecidableEq, Repr

/-- The machine-side collaborators consulted by the installers:
`cmdExists` stands for `commandExists` / `exec.LookPath` succeeding, and
`runBrew` / `runYay` for the error result of `cmd.Run()` on the spawned
process. -/
structure PkgEnv where
  cmdExists : String → Bool
  runBrew : List String → Option String
  runYay : List String → Option String

/-- Embeds `Homebrew.Install` (homebrew.go lines 17-34): empty input
returns nil immediately; missing `brew` returns an error; otherwise spawns
`brew install <packages>` and returns its result. -/
def homebrewInstall (env : PkgEnv) (packages : List String) : InstallOut :=
  if packages.isEmpty then { err := none, cmds := [] }
  else if !(env.cmdExists ("brew")) then
    { err := some ("homebrew not installed"), cmds := [] }
  else
    { err := env.runBrew (("install") :: packages)
      cmds := [(("brew"), ("install") :: packages)] }

/-- Embeds `Yay.Install` (yay.go lines 17-34): empty input returns nil
immediately; missing `yay` returns an error; otherwise spawns
`yay -S --noconfirm <packages>` and returns its result. -/
def yayInstall (env : PkgEnv) (packages : List String) : InstallOut :=
  if packages.isEmpty then { err := none, cmds := [] }
  else if !(env.cmdExists ("yay")) then
    { err := some ("yay not installed"), cmds := [] }
  else
    { err := env.runYay (("-S") :: ("--noconfirm") :: packages)
      cmds := [(("yay"), ("-S") :: ("--noconfirm") :: packages)] }

/-- Embeds `Noop.Install` (manager.go lines 41-43): unconditionally
returns the "not supported" error and spawns nothing.  Note there is no
empty-input check in the source. -/
def noopInstall (_packages : List String) : InstallOut :=
  { err := some ("package manager not supported on this platform")
    cmds := [] }

/-- Embeds `Noop.IsInstalled` (manager.go lines 45-47): always false. -/
def noopIsInstalled (_pkgName : String) : Bool := false

/-- Embeds `Noop.Available` (manager.go lines 49-51): always false. -/
def noopAvailable : Bool := false

end Pkg

/-- C7: And of zero conditions is true, Or of zero conditions is false,
Not inverts its condition, and And/Or evaluate their arguments left to
right with short-circuiting: the head condition is evaluated first, And
returns false at the first false condition after exactly one call on it
(the call count being independent of the remaining conditions), and Or
symmetrically returns true at the first true condition.  The prefix
clauses state that when every condition before the first false (resp.
true) one evaluates true (resp. false), the loop performs exactly
`pre.length + 1` condition invocations. -/
theorem c7_boolean_combinators {ρ : Type} (c : Pipeline.Condition ρ)
    (cs : List (Pipeline.Condition ρ)) (req : ρ) :
    Pipeline.And ([] : List (Pipeline.Condition ρ)) req = true ∧
    Pipeline.Or ([] : List (Pipeline.Condition ρ)) req = false ∧
    Pipeline.Not c req = !(c req) ∧
    Pipeline.And (c :: cs) req = (if c req then Pipeline.And cs req else false) ∧
    Pipeline.Or (c :: cs) req = (if c req then true else Pipeline.Or cs req) ∧
    Pipeline.andCalls (c :: cs) req
      = (if c req then 1 + Pipeline.andCalls cs req else 1) ∧
    Pipeline.orCalls (c :: cs) req
      = (if c req then 1 else 1 + Pipeline.orCalls cs req) ∧
    (∀ pre post : List (Pipeline.Condition ρ),
      (∀ d ∈ pre, d req = true) → c req = false →
      Pipeline.And (pre ++ c :: post) req = false ∧
      Pipeline.andCalls (pre ++ c :: post) req = pre.length + 1) ∧
    (∀ pre post : List (Pipeline.Condition ρ),
      (∀ d ∈ pre, d req = false) → c req = true →
      Pipeline.Or (pre ++ c :: post) req = true ∧
      Pipeline.orCalls (pre ++ c :: post) req = pre.length + 1) := by
  refine ⟨rfl, rfl, rfl, rfl, rfl, rfl, rfl, ?_, ?_⟩
  · intro pre post hpre hc
    induction pre with
    | nil => simp [Pipeline.And, Pipeline.andCalls, hc]
    | cons d ds ih =>
      have hd : d req = true := hpre d (List.mem_cons_self d ds)
      have hds : ∀ x ∈ ds, x req = true := fun x hx =>
        hpre x (List.mem_cons_of_mem d hx)
      have := ih hds
      simp [Pipeline.And, Pipeline.andCalls, hd, this.1, this.2]
      omega
  · intro pre post hpre hc
    induction pre with
    | nil => simp [Pipeline.Or, Pipeline.orCalls, hc]
    | cons d ds ih =>
      have hd : d req = false := hpre d (List.mem_cons_self d ds)
      have hds : ∀ x ∈ ds, x req = false := fun x hx =>
        hpre x (List.mem_cons_of_mem d hx)
      have := ih hds
      simp [Pipeline.Or, Pipeline.orCalls, hd, this.1, this.2]
      omega

/-- Witness for C7 at concrete inputs: with a true condition before a
false one, And over the three-condition list is false after exactly two
condition calls, and the empty-list cases hold. -/
theorem c7_boolean_combinators_witness :
    Pipeline.And ([] : List (Pipeline.Condition Nat)) 0 = true ∧
    Pipeline.Or ([] : List (Pipeline.Condition Nat)) 0 = false ∧
    Pipeline.And ([fun _ => true] ++ (fun _ => false) :: [fun _ => true]) 0
      = false ∧
    Pipeline.andCalls
      ([fun _ => true] ++ (fun _ => false) :: [fun _ => true]) 0 = 2 := by
  have h := c7_boolean_combinators (ρ := Nat) (fun _ => false) [] 0
  have hsc := h.2.2.2.2.2.2.2.1 [fun _ => true] [fun _ => true]
    (by intro d hd; simp at hd; simp [hd]) rfl
  exact ⟨h.1, h.2.1, hsc.1, hsc.2⟩

/-- C8: the file-exists condition first replaces every `$HOME` occurrence
with the context's workDir, replaces a leading `~` with workDir, then
expands remaining environment variables, cleans the result, and reports
whether the filesystem entry exists; a missing entry yields the value
false (the condition returns a boolean, never an error). -/
theorem c8_file_exists_pipeline (expandEnv clean : String → String)
    (stat : String → Bool) (path : String) (env : Pipeline.Environment) :
    Pipeline.FileExists expandEnv clean stat path env
      = Pipeline.fileExistsSpec expandEnv clean stat path env ∧
    (stat (Pipeline.expandPathWithWorkDir expandEnv clean path env.workDir)
        = false →
      Pipeline.FileExists expandEnv clean stat path env = false) := by
  constructor
  · rfl
  · intro h
    simpa [Pipeline.FileExists] using h

/-- Witness for C8 at concrete inputs: with identity expansion and
cleaning and a filesystem with no entries, the hypothesis holds and the
condition evaluates to false. -/
theorem c8_file_exists_pipeline_witness :
    (fun _ => false : String → Bool)
      (Pipeline.expandPathWithWorkDir id id ("$HOME/.zpm") ("/home/user"))
      = false ∧
    Pipeline.FileExists id id (fun _ => false) ("$HOME/.zpm")
      { os := ("linux"), arch := ("amd64"), workDir := ("/home/user") }
      = false := by
  refine ⟨rfl, ?_⟩
  exact (c8_file_exists_pipeline id id (fun _ => false) ("$HOME/.zpm")
    { os := ("linux"), arch := ("amd64"), workDir := ("/home/user") }).2 rfl

/-- The `NewManager` selection loop returns the first available manager of
the list, `Noop` when none is. -/
theorem firstAvailable_eq_find (avail : Pkg.PM → Bool) :
    ∀ ms : List Pkg.PM,
      Pkg.firstAvailable avail ms = (ms.find? avail).getD Pkg.PM.noop := by
  intro ms
  induction ms with
  | nil => rfl
  | cons m rest ih =>
    by_cases h : avail m = true
    · simp [Pkg.firstAvailable, List.find?, h]
    · simp only [Bool.not_eq_true] at h
      simp [Pkg.firstAvailable, List.find?, h, ih]

/-- C4: for every OS string, installer selection tries the
platform-appropriate implementations in the fixed priority order and
returns the first whose availability check is true; when none is
available (or the OS has no priority list) it returns the no-op
implementation, whose install always fails with the "not supported"
error (invoking no external command) and whose isInstalled and available
always return false. -/
theorem c4_manager_selection (avail : Pkg.PM → Bool) (os : String) :
    Pkg.NewManager avail os = Pkg.selectManagerSpec avail os ∧
    (∀ ps, (Pkg.noopInstall ps).err
        = some ("package manager not supported on this platform") ∧
      (Pkg.noopInstall ps).cmds = []) ∧
    (∀ p, Pkg.noopIsInstalled p = false) ∧
    Pkg.noopAvailable = false := by
  refine ⟨?_, fun ps => ⟨rfl, rfl⟩, fun p => rfl, rfl⟩
  unfold Pkg.NewManager Pkg.selectManagerSpec
  cases h : Pkg.managerPriority os with
  | none => rfl
  | some ms =>
    show Pkg.firstAvailable avail ms =
      (match ms.find? avail with
        | some m => m
        | none => Pkg.PM.noop)
    rw [firstAvailable_eq_find]
    cases hf : ms.find? avail <;> simp [hf]

/-- C5 counterexample: the Noop installer's install on the empty list is
not a no-op returning nil — it returns the "not supported" error. -/
theorem c5_empty_install_counterexample :
    (Pkg.noopInstall []).err ≠ none := by
  simp [Pkg.noopInstall]

/-- C5 (amended): for the Homebrew and Yay installers, install with an
empty list of names is a no-op that returns nil with no external command
invoked; the Noop installer returns its "not supported" error even for an
empty list (likewise invoking no external command). -/
theorem c5_empty_install (env : Pkg.PkgEnv) :
    Pkg.homebrewInstall env [] = { err := none, cmds := [] } ∧
    Pkg.yayInstall env [] = { err := none, cmds := [] } ∧
    (Pkg.noopInstall []).err
      = some ("package manager not supported on this platform") ∧
    (Pkg.noopInstall []).cmds = [] := by
  exact ⟨rfl, rfl, rfl, rfl⟩

/-- After a map-insert, some entry carries the inserted stage's name. -/
theorem insertStage_any (l : List Pipeline.GraphStage) (s : Pipeline.GraphStage) :
    (Pipeline.insertStage l s).any (fun t => t.name == s.name) = true := by
  unfold Pipeline.insertStage
  by_cases h : l.any (fun t => t.name == s.name) = true
  · rw [if_pos h]
    rcases List.any_eq_true.mp h with ⟨t, ht, hname⟩
    refine List.any_eq_true.mpr ⟨s, List.mem_map.mpr ⟨t, ht, ?_⟩, by simp⟩
    simp [hname]
  · rw [if_neg h]
    exact List.any_eq_true.mpr ⟨s, by simp, by simp⟩

/-- Looking a key up after replacing every entry under it returns the
replacement, provided some entry carried the key. -/
theorem find?_insert_replace (n : String) (s2 : Pipeline.GraphStage)
    (hs2 : s2.name = n) :
    ∀ l : List Pipeline.GraphStage, l.any (fun t => t.name == n) = true →
      (l.map (fun t => if t.name == n then s2 else t)).find?
        (fun t => t.name == n) = some s2 := by
  intro l
  induction l with
  | nil => simp
  | cons t rest ih =>
    intro h
    by_cases ht : (t.name == n) = true
    · simp [List.find?, ht, hs2]
    · have h' : rest.any (fun t => t.name == n) = true := by
        rcases List.any_eq_true.mp h with ⟨u, hu, hun⟩
        rcases List.mem_cons.mp hu with rfl | hu'
        · exact absurd hun ht
        · exact List.any_eq_true.mpr ⟨u, hu', hun⟩
      have hb : (t.name == n) = false := by simpa using ht
      rw [List.map_cons, if_neg ht]
      simp only [List.find?, hb]
      exact ih h'

/-- When some entry already carries the key, a map-insert replaces every
entry under that key. -/
theorem insertStage_pos (l : List Pipeline.GraphStage)
    (s : Pipeline.GraphStage)
    (h : l.any (fun t => t.name == s.name) = true) :
    Pipeline.insertStage l s
      = l.map (fun t => if t.name == s.name then s else t) := by
  unfold Pipeline.insertStage
  rw [if_pos h]

/-- After replacing every entry under a key, every entry carrying that
key is the replacement. -/
theorem mem_insert_replace (n : String) (s2 : Pipeline.GraphStage)
    (l : List Pipeline.GraphStage) :
    ∀ t ∈ l.map (fun t => if t.name == n then s2 else t),
      t.name = n → t = s2 := by
  intro t ht hname
  rcases List.mem_map.mp ht with ⟨u, hu, rfl⟩
  by_cases h : (u.name == n) = true
  · simp [h]
  · rw [if_neg h] at hname ⊢
    exact absurd (by simp [hname]) h

/-- C9: registering a stage under an already-registered name silently
overwrites the prior registration: after the second AddStage the mapping
yields only the newly created stage for that name, and the stage count
does not increase (AddStage is total — no error is reported). -/
theorem c9_addstage_overwrites (g : Pipeline.Graph) (n : String)
    (r1 r2 : Option String) :
    Pipeline.lookupStage (Pipeline.AddStage (Pipeline.AddStage g n r1) n r2) n
      = some (Pipeline.mkStage n r2) ∧
    (Pipeline.AddStage (Pipeline.AddStage g n r1) n r2).stages.length
      = (Pipeline.AddStage g n r1).stages.length ∧
    ∀ t ∈ (Pipeline.AddStage (Pipeline.AddStage g n r1) n r2).stages,
      t.name = n → t = Pipeline.mkStage n r2 := by
  have hname1 : (Pipeline.mkStage n r1).name = n := rfl
  have hname2 : (Pipeline.mkStage n r2).name = n := rfl
  have hany : (Pipeline.insertStage g.stages (Pipeline.mkStage n r1)).any
      (fun t => t.name == n) = true :=
    insertStage_any g.stages (Pipeline.mkStage n r1)
  have hstages :
      (Pipeline.AddStage (Pipeline.AddStage g n r1) n r2).stages
        = (Pipeline.insertStage g.stages (Pipeline.mkStage n r1)).map
            (fun t => if t.name == n then Pipeline.mkStage n r2 else t) := by
    show Pipeline.insertStage (Pipeline.insertStage g.stages
        (Pipeline.mkStage n r1)) (Pipeline.mkStage n r2) = _
    exact insertStage_pos _ _ hany
  refine ⟨?_, ?_, ?_⟩
  · show (Pipeline.AddStage (Pipeline.AddStage g n r1) n r2).stages.find?
        (fun t => t.name == n) = some (Pipeline.mkStage n r2)
    rw [hstages]
    exact find?_insert_replace n (Pipeline.mkStage n r2) hname2 _ hany
  · rw [hstages, List.length_map]
    rfl
  · rw [hstages]
    exact mem_insert_replace n (Pipeline.mkStage n r2) _

/-- C3: in a graph where every stage has at least one dependency (as in a
dependency cycle), the root set Execute computes is empty, so Execute
launches nothing: no handler is invoked, no stage is marked completed,
and it returns nil (the code has no explicit cycle error — silent
completion). -/
theorem c3_all_dependent_graph_inert (env : Pipeline.ExecEnv)
    (g : List Pipeline.GraphStage) (fuel : Nat) (st : Pipeline.ExecState)
    (h : ∀ s ∈ g, s.dependencies ≠ []) :
    g.filter (fun s => s.dependencies.isEmpty) = [] ∧
    Pipeline.Execute env g fuel st = (st, none) := by
  have hf : g.filter (fun s => s.dependencies.isEmpty) = [] := by
    rw [List.filter_eq_nil_iff]
    intro a ha
    simpa [List.isEmpty_iff] using h a ha
  refine ⟨hf, ?_⟩
  simp [Pipeline.Execute, hf]

/-- Witness for C3: a two-stage dependency cycle executes nothing and
returns nil. -/
theorem c3_all_dependent_graph_inert_witness :
    (∀ s ∈ ([{ name := ("a"), platform := (""), dependencies := [("b")],
               requires := [], unlessConds := [], optional := false,
               runResult := none },
             { name := ("b"), platform := (""), dependencies := [("a")],
               requires := [], unlessConds := [], optional := false,
               runResult := none }] : List Pipeline.GraphStage),
      s.dependencies ≠ []) ∧
    Pipeline.Execute { platform := ("linux"), lookPath := fun _ => true }
      [{ name := ("a"), platform := (""), dependencies := [("b")],
         requires := [], unlessConds := [], optional := false,
         runResult := none },
       { name := ("b"), platform := (""), dependencies := [("a")],
         requires := [], unlessConds := [], optional := false,
         runResult := none }] 4
      { executed := [], invoked := [], warnings := [] }
      = ({ executed := [], invoked := [], warnings := [] }, none) := by
  refine ⟨by decide, ?_⟩
  exact (c3_all_dependent_graph_inert
    { platform := ("linux"), lookPath := fun _ => true }
    [{ name := ("a"), platform := (""), dependencies := [("b")],
       requires := [], unlessConds := [], optional := false,
       runResult := none },
     { name := ("b"), platform := (""), dependencies := [("a")],
       requires := [], unlessConds := [], optional := false,
       runResult := none }] 4
    { executed := [], invoked := [], warnings := [] } (by decide)).2

/-- C6: a stage whose platformFilter is non-empty and differs from the
run's platform is marked completed and the per-stage procedure returns
nil — its handler is not invoked (the invoked list is unchanged) and the
result is the same for every value of the stage's skip conditions,
required commands, handler and the environment's lookup function, which
is what "without evaluating any skip condition and without looking up any
required command" means extensionally. -/
theorem c6_platform_mismatch_skip (env : Pipeline.ExecEnv)
    (g : List Pipeline.GraphStage) (fuel : Nat) (s : Pipeline.GraphStage)
    (st : Pipeline.ExecState)
    (hne : s.name ∉ st.executed) (hp1 : s.platform ≠ "")
    (hp2 : s.platform ≠ env.platform) :
    Pipeline.executeStage env g fuel s st
      = ({ st with executed := st.executed ++ [s.name] }, none) := by
  have hstep : Pipeline.stepStage env s st
      = ({ st with executed := st.executed ++ [s.name] },
         Pipeline.StepOut.early) := by
    unfold Pipeline.stepStage
    rw [if_neg hne, if_pos ⟨hp1, hp2⟩]
  cases fuel <;> simp [Pipeline.executeStage, hstep]

/-- Witness for C6: a darwin-only stage on a linux platform is skipped as
completed, with its handler error and required command never consulted. -/
theorem c6_platform_mismatch_skip_witness :
    (("web") ∉ (List.nil : List String)) ∧
    Pipeline.executeStage { platform := ("linux"), lookPath := fun _ => false }
      [] 3
      { name := ("web"), platform := ("darwin"), dependencies := [],
        requires := [("brew")], unlessConds := [true], optional := false,
        runResult := some ("boom") }
      { executed := [], invoked := [], warnings := [] }
      = ({ executed := [("web")], invoked := [], warnings := [] }, none) := by
  refine ⟨by decide, ?_⟩
  exact c6_platform_mismatch_skip
    { platform := ("linux"), lookPath := fun _ => false } [] 3
    { name := ("web"), platform := ("darwin"), dependencies := [],
      requires := [("brew")], unlessConds := [true], optional := false,
      runResult := some ("boom") }
    { executed := [], invoked := [], warnings := [] }
    (by decide) (by decide) (by decide)

/-- When the already-executed, platform and unless checks pass and a
required command is missing, the per-stage body either silently skips
(optional) or fails with the missing-command error (mandatory). -/
theorem stepStage_missing (env : Pipeline.ExecEnv) (s : Pipeline.GraphStage)
    (st : Pipeline.ExecState) (c : String)
    (hne : s.name ∉ st.executed)
    (hplat : s.platform = "" ∨ s.platform = env.platform)
    (hunless : s.unlessConds.any id = false)
    (hmiss : Pipeline.firstMissing env s = some c) :
    Pipeline.stepStage env s st
      = if s.optional then
          ({ st with executed := st.executed ++ [s.name] },
           Pipeline.StepOut.early)
        else (st, Pipeline.StepOut.fatal (Pipeline.Err.missingCommand s.name c)) := by
  have hplatneg : ¬(s.platform ≠ "" ∧ s.platform ≠ env.platform) := by
    rintro ⟨h1, h2⟩
    rcases hplat with h | h
    · exact h1 h
    · exact h2 h
  have hb : ¬(s.unlessConds.any id = true) := by simp [hunless]
  unfold Pipeline.stepStage
  rw [if_neg hne, if_neg hplatneg, if_neg hb, hmiss]

/-- When every front check passes and every required command resolves,
the per-stage body invokes the handler; a handler error is downgraded to
a warning for an optional stage and is a wrapped fatal error otherwise. -/
theorem stepStage_handler_error (env : Pipeline.ExecEnv)
    (s : Pipeline.GraphStage) (st : Pipeline.ExecState) (e : String)
    (hne : s.name ∉ st.executed)
    (hplat : s.platform = "" ∨ s.platform = env.platform)
    (hunless : s.unlessConds.any id = false)
    (hreq : Pipeline.firstMissing env s = none)
    (hrun : s.runResult = some e) :
    Pipeline.stepStage env s st
      = if s.optional then
          ({ st with
              invoked := st.invoked ++ [s.name]
              warnings := st.warnings ++ [(s.name, e)]
              executed := st.executed ++ [s.name] }, Pipeline.StepOut.proceed)
        else ({ st with invoked := st.invoked ++ [s.name] },
          Pipeline.StepOut.fatal (Pipeline.Err.stageFailed s.name e)) := by
  have hplatneg : ¬(s.platform ≠ "" ∧ s.platform ≠ env.platform) := by
    rintro ⟨h1, h2⟩
    rcases hplat with h | h
    · exact h1 h
    · exact h2 h
  have hb : ¬(s.unlessConds.any id = true) := by simp [hunless]
  unfold Pipeline.stepStage
  rw [if_neg hne, if_neg hplatneg, if_neg hb, hreq, hrun]

/-- When every front check passes, every required command resolves and
the handler succeeds, the per-stage body marks the stage executed and
proceeds to the dependent fan-out. -/
theorem stepStage_success (env : Pipeline.ExecEnv)
    (s : Pipeline.GraphStage) (st : Pipeline.ExecState)
    (hne : s.name ∉ st.executed)
    (hplat : s.platform = "" ∨ s.platform = env.platform)
    (hunless : s.unlessConds.any id = false)
    (hreq : Pipeline.firstMissing env s = none)
    (hrun : s.runResult = none) :
    Pipeline.stepStage env s st
      = ({ st with
            invoked := st.invoked ++ [s.name]
            executed := st.executed ++ [s.name] }, Pipeline.StepOut.proceed) := by
  have hplatneg : ¬(s.platform ≠ "" ∧ s.platform ≠ env.platform) := by
    rintro ⟨h1, h2⟩
    rcases hplat with h | h
    · exact h1 h
    · exact h2 h
  have hb : ¬(s.unlessConds.any id = true) := by simp [hunless]
  unfold Pipeline.stepStage
  rw [if_neg hne, if_neg hplatneg, if_neg hb, hreq, hrun]

/-- C1: when a required command's search-path lookup fails (the front
checks having passed): an optional stage is marked completed and the
per-stage procedure returns nil — a silent skip; a mandatory stage makes
the procedure return the missing-required-command error carrying the
stage's and the command's names, with the stage not marked completed and
the handler never invoked. -/
theorem c1_missing_required_command (env : Pipeline.ExecEnv)
    (g : List Pipeline.GraphStage) (fuel : Nat) (s : Pipeline.GraphStage)
    (st : Pipeline.ExecState) (c : String)
    (hne : s.name ∉ st.executed)
    (hplat : s.platform = "" ∨ s.platform = env.platform)
    (hunless : s.unlessConds.any id = false)
    (hmiss : Pipeline.firstMissing env s = some c) :
    (s.optional = true →
      Pipeline.executeStage env g fuel s st
        = ({ st with executed := st.executed ++ [s.name] }, none)) ∧
    (s.optional = false →
      Pipeline.executeStage env g fuel s st
        = (st, some (Pipeline.Err.missingCommand s.name c)) ∧
      s.name ∉ (Pipeline.executeStage env g fuel s st).1.executed ∧
      (Pipeline.executeStage env g fuel s st).1.invoked = st.invoked) := by
  have hstep := stepStage_missing env s st c hne hplat hunless hmiss
  constructor
  · intro hopt
    rw [if_pos hopt] at hstep
    cases fuel <;> simp [Pipeline.executeStage, hstep]
  · intro hopt
    rw [if_neg (by simp [hopt])] at hstep
    have hexec : Pipeline.executeStage env g fuel s st
        = (st, some (Pipeline.Err.missingCommand s.name c)) := by
      cases fuel <;> simp [Pipeline.executeStage, hstep]
    exact ⟨hexec, by rw [hexec]; exact hne, by rw [hexec]⟩

/-- Witness for C1: with no command on the search path, a mandatory
stage requiring `make` fails with the missing-command error and is not
marked completed, while an optional stage requiring `make` is silently
skipped as completed. -/
theorem c1_missing_required_command_witness :
    Pipeline.firstMissing { platform := ("linux"), lookPath := fun _ => false }
      { name := ("build"), platform := (""), dependencies := [],
        requires := [("make")], unlessConds := [], optional := false,
        runResult := none } = some ("make") ∧
    Pipeline.executeStage { platform := ("linux"), lookPath := fun _ => false }
      [] 2
      { name := ("build"), platform := (""), dependencies := [],
        requires := [("make")], unlessConds := [], optional := false,
        runResult := none }
      { executed := [], invoked := [], warnings := [] }
      = ({ executed := [], invoked := [], warnings := [] },
         some (Pipeline.Err.missingCommand ("build") ("make"))) ∧
    Pipeline.executeStage { platform := ("linux"), lookPath := fun _ => false }
      [] 2
      { name := ("lint"), platform := (""), dependencies := [],
        requires := [("make")], unlessConds := [], optional := true,
        runResult := none }
      { executed := [], invoked := [], warnings := [] }
      = ({ executed := [("lint")], invoked := [], warnings := [] }, none) := by
  refine ⟨rfl, ?_, ?_⟩
  · exact ((c1_missing_required_command
      { platform := ("linux"), lookPath := fun _ => false } [] 2
      { name := ("build"), platform := (""), dependencies := [],
        requires := [("make")], unlessConds := [], optional := false,
        runResult := none }
      { executed := [], invoked := [], warnings := [] } ("make")
      (by decide) (Or.inl rfl) rfl rfl).2 rfl).1
  · exact (c1_missing_required_command
      { platform := ("linux"), lookPath := fun _ => false } [] 2
      { name := ("lint"), platform := (""), dependencies := [],
        requires := [("make")], unlessConds := [], optional := true,
        runResult := none }
      { executed := [], invoked := [], warnings := [] } ("make")
      (by decide) (Or.inl rfl) rfl rfl).1 rfl

/-- C2: when a stage's handler is invoked and returns an error: an
optional stage records the error as a warning only, is marked completed,
and the fan-out's launch set over its dependents is exactly the one a
successful handler would have produced; a mandatory stage makes the
per-stage procedure return the error wrapped with the stage's name, the
stage is not marked completed, and the procedure performs no dependent
fan-out (its result state differs from the input only by the handler
invocation). -/
theorem c2_handler_error_policy (env : Pipeline.ExecEnv)
    (g : List Pipeline.GraphStage) (fuel : Nat) (s : Pipeline.GraphStage)
    (st : Pipeline.ExecState) (e : String)
    (hne : s.name ∉ st.executed)
    (hplat : s.platform = "" ∨ s.platform = env.platform)
    (hunless : s.unlessConds.any id = false)
    (hreq : Pipeline.firstMissing env s = none)
    (hrun : s.runResult = some e) :
    (s.optional = true →
      Pipeline.stepStage env s st
        = ({ st with
              invoked := st.invoked ++ [s.name]
              warnings := st.warnings ++ [(s.name, e)]
              executed := st.executed ++ [s.name] },
           Pipeline.StepOut.proceed) ∧
      (Pipeline.stepStage env s st).1.executed
        = (Pipeline.stepStage env { s with runResult := none } st).1.executed ∧
      Pipeline.launchCandidates g s (Pipeline.stepStage env s st).1
        = Pipeline.launchCandidates g s
            (Pipeline.stepStage env { s with runResult := none } st).1) ∧
    (s.optional = false →
      Pipeline.executeStage env g fuel s st
        = ({ st with invoked := st.invoked ++ [s.name] },
           some (Pipeline.Err.stageFailed s.name e)) ∧
      s.name ∉ (Pipeline.executeStage env g fuel s st).1.executed ∧
      (Pipeline.executeStage env g fuel s st).1.executed = st.executed) := by
  have hstepF := stepStage_handler_error env s st e hne hplat hunless hreq hrun
  constructor
  · intro hopt
    rw [if_pos hopt] at hstepF
    have hstepS := stepStage_success env { s with runResult := none } st hne
      hplat hunless hreq rfl
    refine ⟨hstepF, ?_, ?_⟩
    · rw [hstepF, hstepS]
    · rw [hstepF, hstepS]
      exact rfl
  · intro hopt
    rw [if_neg (by simp [hopt])] at hstepF
    have hexec : Pipeline.executeStage env g fuel s st
        = ({ st with invoked := st.invoked ++ [s.name] },
           some (Pipeline.Err.stageFailed s.name e)) := by
      cases fuel <;> simp [Pipeline.executeStage, hstepF]
    refine ⟨hexec, ?_, ?_⟩
    · rw [hexec]
      exact hne
    · rw [hexec]

/-- Witness for C2: a mandatory stage with a failing handler returns the
wrapped error and stays uncompleted; an optional stage with a failing
handler is completed with a warning and proceeds to the fan-out. -/
theorem c2_handler_error_policy_witness :
    Pipeline.executeStage { platform := ("linux"), lookPath := fun _ => true }
      [] 2
      { name := ("deploy"), platform := (""), dependencies := [],
        requires := [], unlessConds := [], optional := false,
        runResult := some ("boom") }
      { executed := [], invoked := [], warnings := [] }
      = ({ executed := [], invoked := [("deploy")], warnings := [] },
         some (Pipeline.Err.stageFailed ("deploy") ("boom"))) ∧
    Pipeline.stepStage { platform := ("linux"), lookPath := fun _ => true }
      { name := ("metrics"), platform := (""), dependencies := [],
        requires := [], unlessConds := [], optional := true,
        runResult := some ("oops") }
      { executed := [], invoked := [], warnings := [] }
      = ({ executed := [("metrics")], invoked := [("metrics")],
           warnings := [(("metrics"), ("oops"))] },
         Pipeline.StepOut.proceed) := by
  constructor
  · exact ((c2_handler_error_policy
      { platform := ("linux"), lookPath := fun _ => true } [] 2
      { name := ("deploy"), platform := (""), dependencies := [],
        requires := [], unlessConds := [], optional := false,
        runResult := some ("boom") }
      { executed := [], invoked := [], warnings := [] } ("boom")
      (by decide) (Or.inl rfl) rfl rfl rfl).2 rfl).1
  · exact ((c2_handler_error_policy
      { platform := ("linux"), lookPath := fun _ => true } [] 2
      { name := ("metrics"), platform := (""), dependencies := [],
        requires := [], unlessConds := [], optional := true,
        runResult := some ("oops") }
      { executed := [], invoked := [], warnings := [] } ("oops")
      (by decide) (Or.inl rfl) rfl rfl rfl).1 rfl).1

/-- One pass of the per-stage body changes the executed set either not at
all or by appending exactly the stage's own name. -/
theorem stepStage_executed_cases (env : Pipeline.ExecEnv)
    (s : Pipeline.GraphStage) (st : Pipeline.ExecState) :
    (Pipeline.stepStage env s st).1.executed = st.executed ∨
    (Pipeline.stepStage env s st).1.executed = st.executed ++ [s.name] := by
  unfold Pipeline.stepStage
  repeat' split
  all_goals first | exact Or.inl rfl | exact Or.inr rfl

/-- A fatal per-stage result leaves the executed set unchanged (the
error returns at part_005 lines 172 and 182 precede the flag update at
lines 188-190). -/
theorem stepStage_fatal_executed (env : Pipeline.ExecEnv)
    (s : Pipeline.GraphStage) (st : Pipeline.ExecState) (e : Pipeline.Err)
    (h : (Pipeline.stepStage env s st).2 = Pipeline.StepOut.fatal e) :
    (Pipeline.stepStage env s st).1.executed = st.executed := by
  revert h
  unfold Pipeline.stepStage
  repeat' split
  all_goals intro h
  all_goals first | rfl | simp at h

/-- A stage whose per-stage body is fatal whenever attempted never enters
the executed set, across any interleaving of per-stage invocations. -/
theorem traceRun_not_executed (env : Pipeline.ExecEnv)
    (s : Pipeline.GraphStage)
    (hfail : ∀ st : Pipeline.ExecState, s.name ∉ st.executed →
      ∃ e, (Pipeline.stepStage env s st).2 = Pipeline.StepOut.fatal e) :
    ∀ (seq : List Pipeline.GraphStage) (st0 : Pipeline.ExecState),
      s.name ∉ st0.executed → (∀ t ∈ seq, t.name = s.name → t = s) →
      s.name ∉ (Pipeline.traceRun env seq st0).executed := by
  intro seq
  induction seq with
  | nil => intro st0 h0 _; exact h0
  | cons t rest ih =>
    intro st0 h0 huniq
    have hstep : s.name ∉ (Pipeline.applyStage env st0 t).executed := by
      by_cases hname : t.name = s.name
      · have ht : t = s := huniq t (List.mem_cons_self t rest) hname
        rcases hfail st0 h0 with ⟨e, he⟩
        show s.name ∉ (Pipeline.stepStage env t st0).1.executed
        rw [ht, stepStage_fatal_executed env s st0 e he]
        exact h0
      · rcases stepStage_executed_cases env t st0 with h | h
        · show s.name ∉ (Pipeline.stepStage env t st0).1.executed
          rw [h]
          exact h0
        · show s.name ∉ (Pipeline.stepStage env t st0).1.executed
          rw [h]
          intro hmem
          rcases List.mem_append.mp hmem with h' | h'
          · exact h0 h'
          · exact hname ((List.mem_singleton.mp h').symm)
    have huniq' : ∀ u ∈ rest, u.name = s.name → u = s := fun u hu =>
      huniq u (List.mem_cons_of_mem t hu)
    exact ih (Pipeline.applyStage env st0 t) hstep huniq'

/-- C10: a non-optional stage whose per-stage procedure fails (missing
required command or handler error) whenever it is attempted keeps its
executed flag false across every interleaving of per-stage invocations;
consequently allDependenciesMet is false for every stage depending on it,
so no such dependent ever appears in any predecessor's fan-out launch set
in any graph. -/
theorem c10_failed_stage_blocks_dependents (env : Pipeline.ExecEnv)
    (seq : List Pipeline.GraphStage) (st0 : Pipeline.ExecState)
    (s : Pipeline.GraphStage)
    (hfail : ∀ st : Pipeline.ExecState, s.name ∉ st.executed →
      ∃ e, (Pipeline.stepStage env s st).2 = Pipeline.StepOut.fatal e)
    (h0 : s.name ∉ st0.executed)
    (huniq : ∀ t ∈ seq, t.name = s.name → t = s) :
    s.name ∉ (Pipeline.traceRun env seq st0).executed ∧
    ∀ dep : Pipeline.GraphStage, s.name ∈ dep.dependencies →
      Pipeline.allDependenciesMet (Pipeline.traceRun env seq st0) dep
        = false ∧
      ∀ (g : List Pipeline.GraphStage) (t : Pipeline.GraphStage),
        dep ∉ Pipeline.launchCandidates g t (Pipeline.traceRun env seq st0) := by
  have hmain := traceRun_not_executed env s hfail seq st0 h0 huniq
  refine ⟨hmain, ?_⟩
  intro dep hdep
  have hmet : Pipeline.allDependenciesMet (Pipeline.traceRun env seq st0) dep
      = false := by
    cases hall : Pipeline.allDependenciesMet (Pipeline.traceRun env seq st0) dep
    · rfl
    · exfalso
      have hc := List.all_eq_true.mp hall s.name hdep
      exact hmain (by simpa using hc)
  refine ⟨hmet, ?_⟩
  intro g t hmemL
  have hp := (List.mem_filter.mp hmemL).2
  rw [hmet] at hp
  cases hp

/-- Witness for C10: a mandatory stage requiring the absent command
`make` stays unexecuted after being attempted, its dependent's
dependencies are never all met, and the dependent is in no launch set. -/
theorem c10_failed_stage_blocks_dependents_witness :
    ("build") ∉ (Pipeline.traceRun
      { platform := ("linux"), lookPath := fun _ => false }
      [{ name := ("build"), platform := (""), dependencies := [],
         requires := [("make")], unlessConds := [], optional := false,
         runResult := none }]
      { executed := [], invoked := [], warnings := [] }).executed ∧
    Pipeline.allDependenciesMet (Pipeline.traceRun
      { platform := ("linux"), lookPath := fun _ => false }
      [{ name := ("build"), platform := (""), dependencies := [],
         requires := [("make")], unlessConds := [], optional := false,
         runResult := none }]
      { executed := [], invoked := [], warnings := [] })
      { name := ("test"), platform := (""), dependencies := [("build")],
        requires := [], unlessConds := [], optional := false,
        runResult := none } = false ∧
    ({ name := ("test"), platform := (""), dependencies := [("build")],
       requires := [], unlessConds := [], optional := false,
       runResult := none } : Pipeline.GraphStage)
      ∉ Pipeline.launchCandidates
        [{ name := ("build"), platform := (""), dependencies := [],
           requires := [("make")], unlessConds := [], optional := false,
           runResult := none },
         { name := ("test"), platform := (""), dependencies := [("build")],
           requires := [], unlessConds := [], optional := false,
           runResult := none }]
        { name := ("build"), platform := (""), dependencies := [],
          requires := [("make")], unlessConds := [], optional := false,
          runResult := none }
        (Pipeline.traceRun
          { platform := ("linux"), lookPath := fun _ => false }
          [{ name := ("build"), platform := (""), dependencies := [],
             requires := [("make")], unlessConds := [], optional := false,
             runResult := none }]
          { executed := [], invoked := [], warnings := [] }) := by
  have hfail : ∀ st : Pipeline.ExecState,
      (("build") : String) ∉ st.executed →
      ∃ e, (Pipeline.stepStage
        { platform := ("linux"), lookPath := fun _ => false }
        { name := ("build"), platform := (""), dependencies := [],
          requires := [("make")], unlessConds := [], optional := false,
          runResult := none } st).2 = Pipeline.StepOut.fatal e := by
    intro st hst
    refine ⟨Pipeline.Err.missingCommand ("build") ("make"), ?_⟩
    rw [stepStage_missing
      { platform := ("linux"), lookPath := fun _ => false }
      { name := ("build"), platform := (""), dependencies := [],
        requires := [("make")], unlessConds := [], optional := false,
        runResult := none } st ("make") hst (Or.inl rfl) rfl rfl]
    rfl
  have h := c10_failed_stage_blocks_dependents
    { platform := ("linux"), lookPath := fun _ => false }
    [{ name := ("build"), platform := (""), dependencies := [],
       requires := [("make")], unlessConds := [], optional := false,
       runResult := none }]
    { executed := [], invoked := [], warnings := [] }
    { name := ("build"), platform := (""), dependencies := [],
      requires := [("make")], unlessConds := [], optional := false,
      runResult := none }
    hfail (by decide) (by decide)
  obtain ⟨h1, h2⟩ := h
  obtain ⟨h3, h4⟩ := h2
    { name := ("test"), platform := (""), dependencies := [("build")],
      requires := [], unlessConds := [], optional := false,
      runResult := none } (by decide)
  exact ⟨h1, h3, h4 _ _⟩

/-- Witness for C9: registering `a` twice in an empty graph leaves one
stage, the second registration's value. -/
theorem c9_addstage_overwrites_witness :
    Pipeline.lookupStage
      (Pipeline.AddStage
        (Pipeline.AddStage { stages := [], platform := ("linux") }
          ("a") none)
        ("a") (some ("x"))) ("a")
      = some (Pipeline.mkStage ("a") (some ("x"))) ∧
    (Pipeline.AddStage
      (Pipeline.AddStage { stages := [], platform := ("linux") } ("a") none)
      ("a") (some ("x"))).stages.length
      = (Pipeline.AddStage { stages := [], platform := ("linux") }
          ("a") none).stages.length := by
  have h := c9_addstage_overwrites { stages := [], platform := ("linux") }
    ("a") none (some ("x"))
  exact ⟨h.1, h.2.1⟩
